import Mathlib

/-!
Verification development for the `igrf-model` package: a shallow embedding
of the IGRF coefficient resolver (`IGRFModel._get_coeffs_for_year`), the
spherical-harmonic synthesis routine
(`igrf13syn_with_precalculated_coeffs`), the magnetic-vector wrapper
(`MagneticVector`) and the date-bound evaluator (`DateBoundIGRFModel`).

The resolver works over `ℚ` (exact arithmetic in place of IEEE doubles);
the synthesis engine works over `ℝ` because it needs `sin`, `cos`, `sqrt`
and `π`.  Python list indexing (negative wrap-around, `IndexError` on
out-of-bounds access) is modelled by `pyGet`; fallible code returns
`Option` or `Except`.
-/

namespace IGRF

/-- Python list indexing `l[i]`: negative indices wrap around from the end;
an index out of `[-len, len)` is an `IndexError`, modelled as `none`. -/
def pyGet {α : Type} (l : List α) (i : ℤ) : Option α :=
  if i < 0 then
    if 0 ≤ i + l.length then l.get? (i + l.length).toNat else none
  else
    l.get? i.toNat

/-- Totalised Python list read, defaulting to `0`; used only to state
closed forms under a hypothesis that every actual read succeeds. -/
def pyGetD (l : List ℚ) (i : ℤ) : ℚ :=
  (pyGet l i).getD 0

/-- Python `int(x)` on a float: truncation toward zero. -/
def pyInt (q : ℚ) : ℤ :=
  if 0 ≤ q then ⌊q⌋ else ⌈q⌉

/-- `nmx = 10 if date < 1995.0 else 13` (line 138 of `model.py`). -/
def nmxFor (date : ℚ) : ℕ :=
  if date < 1995 then 10 else 13

/-- `nc = nmx * (nmx + 2)` (line 139 of `model.py`). -/
def ncFor (date : ℚ) : ℕ :=
  nmxFor date * (nmxFor date + 2)

/-- The `(t, tc, ll)` triple computed on lines 135-162 of `model.py`:
interpolation weights and the block offset into the flat table. -/
def twFor (minY maxY date : ℚ) : ℚ × ℚ × ℤ :=
  let date_threshold := maxY - 10
  if date ≥ date_threshold then
    let t := date - date_threshold
    let tc : ℚ := 1
    let ll : ℤ := 120 * 19 + (ncFor date : ℤ) * pyInt ((date_threshold - 1995) / 5)
    (t, tc, ll)
  else
    let t0 := (date - minY) / 5
    let ll0 := pyInt t0
    let t := t0 - ll0
    let tc := 1 - t
    let ll : ℤ :=
      if date < 1995 then (ncFor date : ℤ) * ll0
      else 120 * 19 + (ncFor date : ℤ) * pyInt ((date - 1995) / 5)
    (t, tc, ll)

/-- One resolved coefficient row: the inner `for m in range(n + 1)` loop of
`_get_coeffs_for_year` (lines 173-181 of `model.py`), started at index `m`
with `cnt` iterations left and read head `temp`.  Returns the `g`-row
entries, the `h`-row entries and the final read head; fails when a table
read fails (Python `IndexError`). -/
def walkRow (table : List ℚ) (tc t : ℚ) (nc : ℤ) :
    ℕ → ℕ → ℤ → Option (List (Option ℚ) × List (Option ℚ) × ℤ)
  | _, 0, temp => some ([], [], temp)
  | m, cnt + 1, temp =>
    if m ≠ 0 then do
      let a ← pyGet table temp
      let b ← pyGet table (temp + nc)
      let c ← pyGet table (temp + 1)
      let d ← pyGet table (temp + nc + 1)
      let (gr, hr, temp') ← walkRow table tc t nc (m + 1) cnt (temp + 2)
      some (some (tc * a + t * b) :: gr, some (tc * c + t * d) :: hr, temp')
    else do
      let a ← pyGet table temp
      let b ← pyGet table (temp + nc)
      let (gr, hr, temp') ← walkRow table tc t nc (m + 1) cnt (temp + 1)
      some (some (tc * a + t * b) :: gr, none :: hr, temp')

/-- The outer `for n in range(nmx + 1)` loop of `_get_coeffs_for_year`
(lines 168-181 of `model.py`), started at degree `n` with `cnt` rows left.
Row `0` of `g` receives a leading `None` sentinel before the walk
(`g[0].append(None)` on line 172). -/
def walkRows (table : List ℚ) (tc t : ℚ) (nc : ℤ) :
    ℕ → ℕ → ℤ → Option (List (List (Option ℚ)) × List (List (Option ℚ)) × ℤ)
  | _, 0, temp => some ([], [], temp)
  | n, cnt + 1, temp => do
    let (gr, hr, temp') ← walkRow table tc t nc 0 (n + 1) temp
    let (grs, hrs, temp'') ← walkRows table tc t nc (n + 1) cnt temp'
    some (((if n = 0 then [none] else []) ++ gr) :: grs, hr :: hrs, temp'')

/-- Errors of the resolver: the explicit `ValueError` for an out-of-range
year (lines 130-133 of `model.py`), and a Python `IndexError` from a table
read. -/
inductive ResolveErr : Type
  | outOfRange : ResolveErr
  | indexError : ResolveErr
  deriving DecidableEq

/-- Resolved coefficients: two row-lists with `None` placeholders. -/
abbrev CoeffsQ := List (List (Option ℚ)) × List (List (Option ℚ))

/-- Shallow embedding of `IGRFModel._get_coeffs_for_year` (lines 120-183 of
`model.py`): range check first, then weights and block offset, then the
sequential table walk starting at `temp = ll - 1`. -/
def getCoeffsForYear (table : List ℚ) (minY maxY date : ℚ) :
    Except ResolveErr CoeffsQ :=
  if date < minY ∨ date > maxY then
    .error .outOfRange
  else
    let nmx := nmxFor date
    let nc := ncFor date
    let w := twFor minY maxY date
    match walkRows table w.2.1 w.1 (nc : ℤ) 0 (nmx + 1) (w.2.2 - 1) with
    | some (g, h, _) => .ok (g, h)
    | none => .error .indexError

/-- Offset of the `g`-read of node `(n, m)` from the start of the walk:
rows `0 .. n-1` consume `2*j + 1` values each (`n^2` in total), and within
row `n` the node of order `m ≥ 1` starts `2*m - 1` values in. -/
def gNodeOff (n m : ℕ) : ℕ :=
  n * n + (if m = 0 then 0 else 2 * m - 1)

/-- In-row offset of the node of order `m`: `0` at `m = 0`, `2*m - 1`
afterwards (1 value consumed by the order-0 node, 2 by every later one). -/
def mOff (m : ℕ) : ℤ :=
  if m = 0 then 0 else 2 * m - 1

/-- The interpolated value read at table offset `i`:
`tc * table[i] + t * table[i + nc]` (lines 175-179 of `model.py`). -/
def wv (table : List ℚ) (tc t : ℚ) (nc : ℤ) (i : ℤ) : ℚ :=
  tc * pyGetD table i + t * pyGetD table (i + nc)

/-- Closed form of the `g`-row of degree `n` produced by the walk starting
at table offset `base`. -/
def gRowSpec (table : List ℚ) (tc t : ℚ) (nc : ℤ) (base : ℤ) (n : ℕ) :
    List (Option ℚ) :=
  (if n = 0 then [none] else []) ++
    (List.range (n + 1)).map fun m => some (wv table tc t nc (base + gNodeOff n m))

/-- Closed form of the `h`-row of degree `n` produced by the walk starting
at table offset `base`: `None` at order `0`, the value one slot after the
corresponding `g`-read otherwise. -/
def hRowSpec (table : List ℚ) (tc t : ℚ) (nc : ℤ) (base : ℤ) (n : ℕ) :
    List (Option ℚ) :=
  (List.range (n + 1)).map fun m =>
    if m = 0 then none else some (wv table tc t nc (base + gNodeOff n m + 1))

/-! ## Synthesis engine (`_igrf13syn.py`) -/

/-- The two possible input coordinate types of `igrf13syn`. -/
inductive InputType : Type
  | geodetic : InputType
  | geocentric : InputType
  deriving DecidableEq

/-- `math.radians`. -/
noncomputable def radians (x : ℝ) : ℝ := x * Real.pi / 180

/-- `math.degrees`. -/
noncomputable def degrees (x : ℝ) : ℝ := x * 180 / Real.pi

/-- `math.hypot` on two arguments (exact-arithmetic semantics). -/
noncomputable def hypot (x y : ℝ) : ℝ := Real.sqrt (x * x + y * y)

/-- Coefficient rows handed to the synthesis engine. -/
abbrev CoeffsR := List (List (Option ℝ)) × List (List (Option ℝ))

/-- `g[n][m]` on the row-lists: fails (Python `IndexError` / `TypeError`)
when the row or entry is missing or the entry is a `None` placeholder. -/
def readCoef (rows : List (List (Option ℝ))) (n m : ℕ) : Option ℝ :=
  match rows.get? n with
  | none => none
  | some row =>
    match row.get? m with
    | none => none
    | some none => none
    | some (some v) => some v

/-- Result of the coordinate set-up on lines 142-166 of `_igrf13syn.py`:
geocentric radius `r`, rotation `(cd, sd)` and the adjusted `(st, ct)`. -/
structure GeoCtx : Type where
  r : ℝ
  cd : ℝ
  sd : ℝ
  st : ℝ
  ct : ℝ

/-- Lines 142-166 of `_igrf13syn.py`: colatitude trig, and for geodetic
input the WGS84 geodetic-to-geocentric conversion; for geocentric input
`cd = 1`, `sd = 0` and `r = alt` unchanged. -/
noncomputable def geoConvert (itype : InputType) (alt lat : ℝ) : GeoCtx :=
  let colat := 90 - lat
  let st := Real.sin (radians colat)
  let ct := Real.cos (radians colat)
  match itype with
  | .geodetic =>
    let a2 : ℝ := 40680631.6
    let b2 : ℝ := 40408296.0
    let one := a2 * st * st
    let two := b2 * ct * ct
    let three := one + two
    let rho := Real.sqrt three
    let r := Real.sqrt (alt * (alt + 2.0 * rho) + (a2 * one + b2 * two) / three)
    let cd := (alt + rho) / r
    let sd := (a2 - b2) / rho * ct * st / r
    ⟨r, cd, sd, st * cd + ct * sd, ct * cd - st * sd⟩
  | .geocentric => ⟨alt, 1, 0, st, ct⟩

/-- Mutable state of the `for k in range(1, kmx)` loop: the scratch arrays
`p`, `q`, `cl`, `sl` (total maps over `ℤ`, zero outside the written
slots), the pair counters `m`, `n`, the radius power `rr` and the field
accumulators `x`, `y`, `z`. -/
structure SynState : Type where
  p : ℤ → ℝ
  q : ℤ → ℝ
  cl : ℤ → ℝ
  sl : ℤ → ℝ
  m : ℕ
  n : ℕ
  rr : ℝ
  x : ℝ
  y : ℝ
  z : ℝ

/-- Pointwise array update `a[i] = v`. -/
def upd (f : ℤ → ℝ) (i : ℤ) (v : ℝ) : ℤ → ℝ :=
  fun j => if j = i then v else f j

/-- Lines 179-182 of `_igrf13syn.py`: when `n < m`, reset the order to `0`,
advance the degree and multiply `rr` by `ratio`. -/
def resetStep (ratio : ℝ) (s : SynState) : SynState :=
  if s.n < s.m then { s with m := 0, n := s.n + 1, rr := s.rr * ratio } else s

/-- Lines 184-199 of `_igrf13syn.py`: the associated-Legendre recurrence
updating `p[k]`, `q[k]` (and `cl[m-1]`, `sl[m-1]` on the diagonal). -/
noncomputable def recurStep (st ct : ℝ) (k : ℕ) (s : SynState) : SynState :=
  if s.m ≠ s.n then
    let one := Real.sqrt ((s.n : ℝ) * (s.n : ℝ) - (s.m : ℝ) * (s.m : ℝ))
    let two := Real.sqrt (((s.n : ℝ) - 1) * ((s.n : ℝ) - 1) - (s.m : ℝ) * (s.m : ℝ)) / one
    let three := (2 * (s.n : ℝ) - 1) / one
    let i : ℤ := (k : ℤ) - (s.n : ℤ)
    let j : ℤ := i - (s.n : ℤ) + 1
    let p' := upd s.p (k : ℤ) (three * ct * s.p i - two * s.p j)
    let q' := upd s.q (k : ℤ) (three * (ct * s.q i - st * p' i) - two * s.q j)
    { s with p := p', q := q' }
  else if k ≠ 2 then
    let one := Real.sqrt (1.0 - 0.5 / (s.m : ℝ))
    let j : ℤ := (k : ℤ) - (s.n : ℤ) - 1
    let p' := upd s.p (k : ℤ) (one * st * s.p j)
    let q' := upd s.q (k : ℤ) (one * (st * s.q j + ct * p' j))
    let cl' := upd s.cl ((s.m : ℤ) - 1)
      (s.cl ((s.m : ℤ) - 2) * s.cl 0 - s.sl ((s.m : ℤ) - 2) * s.sl 0)
    let sl' := upd s.sl ((s.m : ℤ) - 1)
      (s.sl ((s.m : ℤ) - 2) * cl' 0 + cl' ((s.m : ℤ) - 2) * s.sl 0)
    { s with p := p', q := q', cl := cl', sl := sl' }
  else
    s

open scoped Classical in
/-- Lines 201-216 of `_igrf13syn.py`: accumulate the field components from
the coefficients at the current `(n, m)` node and advance `m`.  The east
component has the singular branch on `st == 0` (exact pole). -/
noncomputable def accumStep (g h : List (List (Option ℝ))) (st ct : ℝ)
    (k : ℕ) (s : SynState) : Option SynState := do
  let gv ← readCoef g s.n s.m
  let one := gv * s.rr
  if s.m = 0 then
    some { s with
      x := s.x + one * s.q (k : ℤ),
      z := s.z - ((s.n : ℝ) + 1) * one * s.p (k : ℤ),
      m := s.m + 1 }
  else
    let hv ← readCoef h s.n s.m
    let two := hv * s.rr
    let three := one * s.cl ((s.m : ℤ) - 1) + two * s.sl ((s.m : ℤ) - 1)
    let y' :=
      if st = 0 then
        s.y + (one * s.sl ((s.m : ℤ) - 1) - two * s.cl ((s.m : ℤ) - 1)) * s.q (k : ℤ) * ct
      else
        s.y + (one * s.sl ((s.m : ℤ) - 1) - two * s.cl ((s.m : ℤ) - 1)) * (s.m : ℝ)
          * s.p (k : ℤ) / st
    some { s with
      x := s.x + three * s.q (k : ℤ),
      z := s.z - ((s.n : ℝ) + 1) * three * s.p (k : ℤ),
      y := y',
      m := s.m + 1 }

/-- Variant of `accumStep` that always uses the alternate pole formula
`(g*sl - h*cl) * q[k] * ct` for the east component; `igrf13syn` must agree
with this variant whenever `st == 0`. -/
noncomputable def accumStepPole (g h : List (List (Option ℝ))) (st ct : ℝ)
    (k : ℕ) (s : SynState) : Option SynState := do
  let gv ← readCoef g s.n s.m
  let one := gv * s.rr
  if s.m = 0 then
    some { s with
      x := s.x + one * s.q (k : ℤ),
      z := s.z - ((s.n : ℝ) + 1) * one * s.p (k : ℤ),
      m := s.m + 1 }
  else
    let hv ← readCoef h s.n s.m
    let two := hv * s.rr
    let three := one * s.cl ((s.m : ℤ) - 1) + two * s.sl ((s.m : ℤ) - 1)
    let y' := s.y + (one * s.sl ((s.m : ℤ) - 1) - two * s.cl ((s.m : ℤ) - 1))
      * s.q (k : ℤ) * ct
    some { s with
      x := s.x + three * s.q (k : ℤ),
      z := s.z - ((s.n : ℝ) + 1) * three * s.p (k : ℤ),
      y := y',
      m := s.m + 1 }

/-- One full iteration of the `for k in range(1, kmx)` loop body. -/
noncomputable def stepK (g h : List (List (Option ℝ))) (st ct ratio : ℝ)
    (k : ℕ) (s : SynState) : Option SynState :=
  accumStep g h st ct k (recurStep st ct k (resetStep ratio s))

/-- `stepK` with the unconditional pole formula for the east component. -/
noncomputable def stepKPole (g h : List (List (Option ℝ))) (st ct ratio : ℝ)
    (k : ℕ) (s : SynState) : Option SynState :=
  accumStepPole g h st ct k (recurStep st ct k (resetStep ratio s))

/-- Run `cnt` iterations of a loop body starting at index `k`. -/
noncomputable def runLoop (step : ℕ → SynState → Option SynState) :
    ℕ → ℕ → SynState → Option SynState
  | _, 0, s => some s
  | k, cnt + 1, s => (step k s).bind (runLoop step (k + 1) cnt)

/-- Initial loop state (lines 132-133 and 171-176 of `_igrf13syn.py`):
`p[0] = 1`, `p[2] = st`, `q[2] = ct`, `cl[0] = cos φ`, `sl[0] = sin φ`,
`m = 1`, `n = 0`, `rr = ratio²`, zero accumulators. -/
noncomputable def initState (st ct slong clong ratio : ℝ) : SynState where
  p := fun i => if i = 0 then 1 else if i = 2 then st else 0
  q := fun i => if i = 2 then ct else 0
  cl := fun i => if i = 0 then clong else 0
  sl := fun i => if i = 0 then slong else 0
  m := 1
  n := 0
  rr := ratio * ratio
  x := 0
  y := 0
  z := 0

/-- The synthesis loop of `igrf13syn_with_precalculated_coeffs` (lines
132-216 of `_igrf13syn.py`): coordinate set-up, then `kmx - 1` iterations
over all `(n, m)` nodes, returning the final accumulator state.  Fails
when the loop reads a missing coefficient. -/
noncomputable def synLoopResult (coeffs : CoeffsR) (itype : InputType)
    (alt lat elong : ℝ) : Option SynState :=
  let g := coeffs.1
  let h := coeffs.2
  let nmx := g.length - 1
  let kmx := (nmx + 1) * (nmx + 2) / 2
  let gc := geoConvert itype alt lat
  let ratio := 6371.2 / gc.r
  let s0 := initState gc.st gc.ct (Real.sin (radians elong)) (Real.cos (radians elong)) ratio
  runLoop (stepK g h gc.st gc.ct ratio) 1 (kmx - 1) s0

/-- Shallow embedding of `igrf13syn_with_precalculated_coeffs` (lines
85-222 of `_igrf13syn.py`): the synthesis loop followed by the final
rotation back to the input frame (lines 219-221), which uses the
pre-rotation `x` (saved in `one`) in the `z` formula. -/
noncomputable def igrf13synPre (coeffs : CoeffsR) (itype : InputType)
    (alt lat elong : ℝ) : Option (ℝ × ℝ × ℝ) :=
  let gc := geoConvert itype alt lat
  (synLoopResult coeffs itype alt lat elong).map fun s =>
    (s.x * gc.cd + s.z * gc.sd, s.y, s.z * gc.cd - s.x * gc.sd)

/-- The synthesis loop with the unconditional pole formula for the east
component: the alternate computation the spec requires at `st == 0`. -/
noncomputable def synLoopResultPole (coeffs : CoeffsR) (itype : InputType)
    (alt lat elong : ℝ) : Option SynState :=
  let g := coeffs.1
  let h := coeffs.2
  let nmx := g.length - 1
  let kmx := (nmx + 1) * (nmx + 2) / 2
  let gc := geoConvert itype alt lat
  let ratio := 6371.2 / gc.r
  let s0 := initState gc.st gc.ct (Real.sin (radians elong)) (Real.cos (radians elong)) ratio
  runLoop (stepKPole g h gc.st gc.ct ratio) 1 (kmx - 1) s0

/-- `igrf13synPre` with the unconditional pole formula for the east
component. -/
noncomputable def igrf13synPrePole (coeffs : CoeffsR) (itype : InputType)
    (alt lat elong : ℝ) : Option (ℝ × ℝ × ℝ) :=
  let gc := geoConvert itype alt lat
  (synLoopResultPole coeffs itype alt lat elong).map fun s =>
    (s.x * gc.cd + s.z * gc.sd, s.y, s.z * gc.cd - s.x * gc.sd)

/-- Invariant of the synthesis loop state at the start of an iteration:
the order is at most one past the degree, and either the degree has
already reached 1 or the state is the initial `(n, m) = (0, 1)`.  It
guarantees that every coefficient read happens at `1 ≤ n` and `m ≤ n`. -/
def SynInv (s : SynState) : Prop :=
  s.m ≤ s.n + 1 ∧ (1 ≤ s.n ∨ (s.n = 0 ∧ s.m = 1))

/-! ## Magnetic vector (`vector.py`) -/

/-- `math.atan2(y, x)` (exact-arithmetic semantics). -/
noncomputable def atan2 (y x : ℝ) : ℝ :=
  if 0 < x then Real.arctan (y / x)
  else if x < 0 ∧ 0 ≤ y then Real.arctan (y / x) + Real.pi
  else if x < 0 ∧ y < 0 then Real.arctan (y / x) - Real.pi
  else if x = 0 ∧ 0 < y then Real.pi / 2
  else if x = 0 ∧ y < 0 then -(Real.pi / 2)
  else 0

/-- `MagneticVector` (lines 7-40 of `vector.py`). -/
structure MagneticVector : Type where
  north : ℝ
  east : ℝ
  down : ℝ

namespace MagneticVector

/-- `MagneticVector.declination` (line 23 of `vector.py`). -/
noncomputable def declination (v : MagneticVector) : ℝ :=
  degrees (atan2 v.east v.north)

/-- `MagneticVector.horizontal_intensity` (line 33 of `vector.py`). -/
noncomputable def horizontal_intensity (v : MagneticVector) : ℝ :=
  hypot v.north v.east

/-- `MagneticVector.inclination` (line 28 of `vector.py`). -/
noncomputable def inclination (v : MagneticVector) : ℝ :=
  degrees (atan2 v.down v.horizontal_intensity)

/-- `MagneticVector.total_intensity` (lines 38-40 of `vector.py`). -/
noncomputable def total_intensity (v : MagneticVector) : ℝ :=
  Real.sqrt (v.north * v.north + v.east * v.east + v.down * v.down)

end MagneticVector

/-! ## Field evaluators (`model.py`) -/

/-- Cast resolver output (`ℚ` values) into the synthesis carrier `ℝ`. -/
def castCoeffs (c : CoeffsQ) : CoeffsR :=
  (c.1.map fun row => row.map fun e => e.map fun q => (q : ℝ),
   c.2.map fun row => row.map fun e => e.map fun q => (q : ℝ))

/-- Shallow embedding of `IGRFModel.evaluate` (lines 78-109 of `model.py`):
resolve coefficients for the date, then run the synthesis in geodetic mode
with the altitude converted from meters to kilometers. -/
noncomputable def modelEvaluate (table : List ℚ) (minY maxY date : ℚ)
    (lat lon altM : ℝ) : Except ResolveErr (Option MagneticVector) :=
  match getCoeffsForYear table minY maxY date with
  | .error e => .error e
  | .ok c =>
    .ok ((igrf13synPre (castCoeffs c) .geodetic (altM / 1000.0) lat lon).map
      fun r => ⟨r.1, r.2.1, r.2.2⟩)

/-- State of a `DateBoundIGRFModel` (lines 186-210 of `model.py`): the
bound date and the lazily cached coefficients (`None` until the first
`evaluate` call). -/
structure DBState : Type where
  date : ℚ
  coeffs : Option CoeffsQ

/-- Shallow embedding of `DateBoundIGRFModel.evaluate` (lines 217-250 of
`model.py`): resolve and cache the coefficients on the first call, then
reuse the cached pair; returns the result together with the updated
state. -/
noncomputable def dbEvaluate (table : List ℚ) (minY maxY : ℚ) (s : DBState)
    (lat lon altM : ℝ) :
    Except ResolveErr (Option MagneticVector × DBState) :=
  match s.coeffs with
  | some c =>
    .ok ((igrf13synPre (castCoeffs c) .geodetic (altM / 1000.0) lat lon).map
      (fun r => (⟨r.1, r.2.1, r.2.2⟩ : MagneticVector)), s)
  | none =>
    match getCoeffsForYear table minY maxY s.date with
    | .error e => .error e
    | .ok c =>
      .ok ((igrf13synPre (castCoeffs c) .geodetic (altM / 1000.0) lat lon).map
        (fun r => (⟨r.1, r.2.1, r.2.2⟩ : MagneticVector)), { s with coeffs := some c })

/-- A date-bound state is coherent when its cache is either empty or holds
exactly what the parent resolver returns for the bound date. -/
def DBCoherent (table : List ℚ) (minY maxY : ℚ) (s : DBState) : Prop :=
  s.coeffs = none ∨ getCoeffsForYear table minY maxY s.date = .ok (s.coeffs.getD ([], []))

/-! ## Helper lemmas -/

/-- Two loop bodies that agree pointwise run to the same result. -/
theorem runLoop_congr (step1 step2 : ℕ → SynState → Option SynState)
    (h : ∀ k s, step1 k s = step2 k s) :
    ∀ cnt k s, runLoop step1 k cnt s = runLoop step2 k cnt s := by
  intro cnt
  induction cnt with
  | zero => intro k s; rfl
  | succ c ih =>
    intro k s
    rw [runLoop, runLoop, h]
    cases step2 k s with
    | none => rfl
    | some s' => exact ih (k + 1) s'

/-- At an exact pole the colatitude sine vanishes. -/
theorem sin_radians_colat_pole (lat : ℝ) (h : lat = 90 ∨ lat = -90) :
    Real.sin (radians (90 - lat)) = 0 := by
  rcases h with h | h <;> subst h
  · have h0 : (90 : ℝ) - 90 = 0 := by norm_num
    have hr : radians 0 = 0 := by simp [radians]
    rw [h0, hr, Real.sin_zero]
  · have h0 : (90 : ℝ) - (-90) = 180 := by norm_num
    have hr : radians 180 = Real.pi := by rw [radians]; ring
    rw [h0, hr, Real.sin_pi]

/-- The adjusted colatitude sine after coordinate conversion vanishes at
both poles, for either input type (the geodetic rotation preserves the
zero because `sd` carries a factor of `st`). -/
theorem geoConvert_st_pole (itype : InputType) (alt lat : ℝ)
    (h : lat = 90 ∨ lat = -90) : (geoConvert itype alt lat).st = 0 := by
  have hs := sin_radians_colat_pole lat h
  cases itype with
  | geocentric => simp [geoConvert, hs]
  | geodetic => simp [geoConvert, hs]

/-- When the colatitude sine is exactly zero, the synthesis accumulation
step takes the alternate pole branch for the east component. -/
theorem accumStep_eq_pole (g h : List (List (Option ℝ))) (ct : ℝ) (k : ℕ)
    (s : SynState) : accumStep g h 0 ct k s = accumStepPole g h 0 ct k s := by
  simp [accumStep, accumStepPole]

/-- python `int` truncation agrees with the floor on nonnegative input. -/
theorem pyInt_of_nonneg (q : ℚ) (h : 0 ≤ q) : pyInt q = ⌊q⌋ := if_pos h

/-- A successful walk of `cnt` rows yields `cnt` rows in `g` and `h`. -/
theorem walkRows_length (table : List ℚ) (tc t : ℚ) (nc : ℤ) :
    ∀ cnt n temp g h temp',
      walkRows table tc t nc n cnt temp = some (g, h, temp') →
      g.length = cnt ∧ h.length = cnt := by
  intro cnt
  induction cnt with
  | zero =>
    intro n temp g h temp' hw
    simp only [walkRows, Option.some.injEq, Prod.mk.injEq] at hw
    obtain ⟨rfl, rfl, -⟩ := hw
    exact ⟨rfl, rfl⟩
  | succ c ih =>
    intro n temp g h temp' hw
    rw [walkRows] at hw
    rcases h1 : walkRow table tc t nc 0 (n + 1) temp with _ | ⟨⟨gr, hrow, t1⟩⟩ <;>
      rw [h1] at hw <;> simp at hw
    rcases h2 : walkRows table tc t nc (n + 1) c t1 with _ | ⟨⟨grs, hrs, t2⟩⟩ <;>
      rw [h2] at hw <;> simp at hw
    obtain ⟨rfl, rfl, -⟩ := hw
    obtain ⟨hgl, hhl⟩ := ih (n + 1) t1 grs hrs t2 h2
    exact ⟨by simp [hgl], by simp [hhl]⟩

/-- A read known to succeed returns the totalised value. -/
theorem pyGet_eq_some_pyGetD (table : List ℚ) (i : ℤ)
    (h : (pyGet table i).isSome) : pyGet table i = some (pyGetD table i) := by
  rcases hg : pyGet table i with _ | v
  · rw [hg] at h; cases h
  · rw [pyGetD, hg]; rfl

/-- `gNodeOff` splits into the row base `n²` and the in-row offset. -/
theorem gNodeOff_cast (n m : ℕ) :
    (gNodeOff n m : ℤ) = (n : ℤ) * (n : ℤ) + mOff m := by
  rw [gNodeOff, mOff]
  split <;> push_cast <;> omega

/-- `mOff` at a successor order. -/
theorem mOff_succ (j : ℕ) : mOff (j + 1) = 2 * (j : ℤ) + 1 := by
  rw [mOff, if_neg (Nat.succ_ne_zero j)]
  push_cast
  ring

/-- Peel the head off a map over `List.range (c + 1)`. -/
theorem range_succ_shift {β : Type} (f : ℕ → β) (c : ℕ) :
    (List.range (c + 1)).map f = f 0 :: (List.range c).map (fun j => f (j + 1)) := by
  rw [List.range_succ_eq_map, List.map_cons, List.map_map]
  rfl

/-- Closed form of the inner walk started at a positive order `m`: every
remaining node consumes two table values, so the `j`-th produced `g` entry
reads offset `temp + 2j` and the `j`-th `h` entry offset `temp + 2j + 1`. -/
theorem walkRow_pos (table : List ℚ) (tc t : ℚ) (nc : ℤ) :
    ∀ (cnt m : ℕ) (temp : ℤ), m ≠ 0 →
      (∀ i : ℤ, temp ≤ i → i < temp + 2 * (cnt : ℤ) →
        (pyGet table i).isSome ∧ (pyGet table (i + nc)).isSome) →
      walkRow table tc t nc m cnt temp =
        some ((List.range cnt).map fun (j : ℕ) => some (wv table tc t nc (temp + 2 * (j : ℤ))),
              (List.range cnt).map fun (j : ℕ) => some (wv table tc t nc (temp + 2 * (j : ℤ) + 1)),
              temp + 2 * (cnt : ℤ)) := by
  intro cnt
  induction cnt with
  | zero =>
    intro m temp hm hr
    simp [walkRow]
  | succ c ih =>
    intro m temp hm hr
    rw [walkRow, if_pos hm]
    have h1 := (hr temp (le_refl _) (by omega)).1
    have h2 := (hr temp (le_refl _) (by omega)).2
    have h3 := (hr (temp + 1) (by omega) (by omega)).1
    have h4 := (hr (temp + 1) (by omega) (by omega)).2
    rw [show temp + 1 + nc = temp + nc + 1 by ring] at h4
    rw [pyGet_eq_some_pyGetD _ _ h1, pyGet_eq_some_pyGetD _ _ h2,
      pyGet_eq_some_pyGetD _ _ h3, pyGet_eq_some_pyGetD _ _ h4]
    simp only [Option.bind_eq_bind, Option.some_bind]
    rw [ih (m + 1) (temp + 2) (Nat.succ_ne_zero m)
      (fun i hi1 hi2 => hr i (by omega) (by omega))]
    simp only [Option.bind_eq_bind, Option.some_bind, Option.some.injEq, Prod.mk.injEq]
    refine ⟨?_, ?_, by push_cast; ring⟩
    · rw [range_succ_shift]
      refine congrArg₂ _ ?_ (List.map_congr_left fun j hj => ?_)
      · simp [wv]
      · congr 1
        push_cast
        ring
    · rw [range_succ_shift]
      refine congrArg₂ _ ?_ (List.map_congr_left fun j hj => ?_)
      · have e : temp + 2 * ((0 : ℕ) : ℤ) + 1 = temp + 1 := by push_cast; ring
        rw [e, wv, show temp + 1 + nc = temp + nc + 1 from by ring]
      · congr 1
        push_cast
        ring

/-- Closed form of a full row walk started at order `0`: the order-0 node
consumes one value (and yields a `None` placeholder for `h`), every later
node consumes two, so the node of order `m` reads offset `temp + mOff m`. -/
theorem walkRow_zero (table : List ℚ) (tc t : ℚ) (nc : ℤ) (n : ℕ) (temp : ℤ)
    (hr : ∀ i : ℤ, temp ≤ i → i < temp + (2 * n + 1) →
      (pyGet table i).isSome ∧ (pyGet table (i + nc)).isSome) :
    walkRow table tc t nc 0 (n + 1) temp =
      some ((List.range (n + 1)).map fun m => some (wv table tc t nc (temp + mOff m)),
            (List.range (n + 1)).map fun m =>
              if m = 0 then none else some (wv table tc t nc (temp + mOff m + 1)),
            temp + (2 * n + 1)) := by
  rw [walkRow, if_neg (by simp)]
  have h1 := (hr temp (le_refl _) (by omega)).1
  have h2 := (hr temp (le_refl _) (by omega)).2
  rw [pyGet_eq_some_pyGetD _ _ h1, pyGet_eq_some_pyGetD _ _ h2]
  simp only [Option.bind_eq_bind, Option.some_bind]
  rw [walkRow_pos table tc t nc n 1 (temp + 1) one_ne_zero
    (fun i hi1 hi2 => hr i (by omega) (by omega))]
  simp only [Option.bind_eq_bind, Option.some_bind, Option.some.injEq, Prod.mk.injEq]
  refine ⟨?_, ?_, by ring⟩
  · rw [range_succ_shift]
    refine congrArg₂ _ ?_ (List.map_congr_left fun j hj => ?_)
    · rw [wv, mOff]
      norm_num
    · rw [mOff_succ]
      congr 1
      ring
  · rw [range_succ_shift]
    refine congrArg₂ _ ?_ (List.map_congr_left fun j hj => ?_)
    · rw [if_pos rfl]
    · rw [if_neg (Nat.succ_ne_zero j), mOff_succ]
      congr 1
      ring

/-- Closed form of the outer walk: starting at degree `n0` with read head
`temp`, row `n0 + j` of the output matches `gRowSpec`/`hRowSpec` relative
to the virtual walk base `temp - n0²`, and `cnt` rows consume
`(n0 + cnt)² - n0²` table values. -/
theorem walkRows_spec (table : List ℚ) (tc t : ℚ) (nc : ℤ) :
    ∀ (cnt n0 : ℕ) (temp : ℤ),
      (∀ i : ℤ, temp ≤ i → i < temp + (((n0 : ℤ) + (cnt : ℤ)) ^ 2 - (n0 : ℤ) ^ 2) →
        (pyGet table i).isSome ∧ (pyGet table (i + nc)).isSome) →
      walkRows table tc t nc n0 cnt temp =
        some ((List.range cnt).map fun j =>
                gRowSpec table tc t nc (temp - (n0 : ℤ) ^ 2) (n0 + j),
              (List.range cnt).map fun j =>
                hRowSpec table tc t nc (temp - (n0 : ℤ) ^ 2) (n0 + j),
              temp + (((n0 : ℤ) + (cnt : ℤ)) ^ 2 - (n0 : ℤ) ^ 2)) := by
  intro cnt
  induction cnt with
  | zero =>
    intro n0 temp hr
    rw [walkRows]
    simp
  | succ c ih =>
    intro n0 temp hr
    have hwin : (2 : ℤ) * (n0 : ℤ) + 1 ≤ ((n0 : ℤ) + ((c : ℕ) + 1 : ℕ)) ^ 2 - (n0 : ℤ) ^ 2 := by
      have hmono : ((n0 : ℤ) + 1) ^ 2 ≤ ((n0 : ℤ) + ((c : ℕ) + 1 : ℕ)) ^ 2 :=
        pow_le_pow_left₀ (by positivity) (by push_cast; omega) 2
      nlinarith [hmono]
    rw [walkRows]
    rw [walkRow_zero table tc t nc n0 temp
      (fun i hi1 hi2 => hr i hi1 (by
        have := hwin
        omega))]
    simp only [Option.bind_eq_bind, Option.some_bind]
    rw [ih (n0 + 1) (temp + (2 * (n0 : ℤ) + 1))
      (fun i hi1 hi2 => hr i (by omega) (by
        have e : temp + (2 * (n0 : ℤ) + 1) + ((((n0 + 1 : ℕ) : ℤ) + (c : ℤ)) ^ 2
            - ((n0 + 1 : ℕ) : ℤ) ^ 2)
            = temp + (((n0 : ℤ) + ((c : ℕ) + 1 : ℕ)) ^ 2 - (n0 : ℤ) ^ 2) := by
          push_cast
          ring
        rw [← e]
        exact hi2))]
    simp only [Option.bind_eq_bind, Option.some_bind, Option.some.injEq, Prod.mk.injEq]
    have hbase : temp + (2 * (n0 : ℤ) + 1) - ((n0 + 1 : ℕ) : ℤ) ^ 2 = temp - (n0 : ℤ) ^ 2 := by
      push_cast
      ring
    refine ⟨?_, ?_, by push_cast; ring⟩
    · conv_rhs => rw [range_succ_shift]
      refine congrArg₂ _ ?_ ?_
      · rw [Nat.add_zero, gRowSpec]
        refine congrArg₂ _ rfl ?_
        refine List.map_congr_left fun m hm => ?_
        congr 1
        rw [gNodeOff_cast]
        push_cast
        ring
      · refine List.map_congr_left fun j hj => ?_
        have hidx : n0 + 1 + j = n0 + (j + 1) := by omega
        rw [hbase, hidx]
    · conv_rhs => rw [range_succ_shift]
      refine congrArg₂ _ ?_ ?_
      · rw [Nat.add_zero, hRowSpec]
        refine List.map_congr_left fun m hm => ?_
        rcases Nat.eq_zero_or_pos m with rfl | hm0
        · rw [if_pos rfl, if_pos rfl]
        · rw [if_neg (Nat.pos_iff_ne_zero.mp hm0), if_neg (Nat.pos_iff_ne_zero.mp hm0)]
          congr 2
          rw [gNodeOff_cast]
          push_cast
          ring
      · refine List.map_congr_left fun j hj => ?_
        have hidx : n0 + 1 + j = n0 + (j + 1) := by omega
        rw [hbase, hidx]

/-- A `get?` inside the length is a value. -/
theorem get?_isSome_of_lt {α : Type} (l : List α) (n : ℕ) (h : n < l.length) :
    (l.get? n).isSome := by
  rw [List.get?_eq_getElem?]
  simp [List.getElem?_eq_getElem h]

/-- A Python read inside `[-len, len)` succeeds. -/
theorem pyGet_isSome_of_bounds {α : Type} (l : List α) (i : ℤ)
    (hlo : -(l.length : ℤ) ≤ i) (hhi : i < l.length) : (pyGet l i).isSome := by
  rw [pyGet]
  by_cases h : i < 0
  · rw [if_pos h, if_pos (by omega)]
    exact get?_isSome_of_lt _ _ (by omega)
  · rw [if_neg h]
    exact get?_isSome_of_lt _ _ (by omega)

/-- Full closed-form characterisation of the resolver on an in-range date
whose walk window lies inside the table: the result is `ok`, and row `n`
of `g` and `h` is `gRowSpec`/`hRowSpec` relative to the walk start
`ll - 1`. -/
theorem getCoeffsForYear_spec (table : List ℚ) (minY maxY date : ℚ)
    (h1 : minY ≤ date) (h2 : date ≤ maxY)
    (hreads : ∀ i : ℤ, (twFor minY maxY date).2.2 - 1 ≤ i →
      i < (twFor minY maxY date).2.2 - 1 + ((nmxFor date : ℤ) + 1) ^ 2 →
      (pyGet table i).isSome ∧ (pyGet table (i + (ncFor date : ℤ))).isSome) :
    getCoeffsForYear table minY maxY date =
      .ok ((List.range (nmxFor date + 1)).map
             (gRowSpec table (twFor minY maxY date).2.1 (twFor minY maxY date).1
               (ncFor date : ℤ) ((twFor minY maxY date).2.2 - 1)),
           (List.range (nmxFor date + 1)).map
             (hRowSpec table (twFor minY maxY date).2.1 (twFor minY maxY date).1
               (ncFor date : ℤ) ((twFor minY maxY date).2.2 - 1))) := by
  have hc : ¬(date < minY ∨ date > maxY) := by push_neg; exact ⟨h1, h2⟩
  simp only [getCoeffsForYear, if_neg hc]
  rw [walkRows_spec table (twFor minY maxY date).2.1 (twFor minY maxY date).1
    (ncFor date : ℤ) (nmxFor date + 1) 0 ((twFor minY maxY date).2.2 - 1)
    (fun i hi1 hi2 => hreads i hi1 (by
      push_cast at hi2 ⊢
      ring_nf at hi2 ⊢
      linarith))]
  have hG : (List.range (nmxFor date + 1)).map
      (fun j => gRowSpec table (twFor minY maxY date).2.1 (twFor minY maxY date).1
        (ncFor date : ℤ) ((twFor minY maxY date).2.2 - 1 - ((0 : ℕ) : ℤ) ^ 2) (0 + j)) =
      (List.range (nmxFor date + 1)).map
      (gRowSpec table (twFor minY maxY date).2.1 (twFor minY maxY date).1
        (ncFor date : ℤ) ((twFor minY maxY date).2.2 - 1)) := by
    refine List.map_congr_left fun j hj => ?_
    norm_num
  have hH : (List.range (nmxFor date + 1)).map
      (fun j => hRowSpec table (twFor minY maxY date).2.1 (twFor minY maxY date).1
        (ncFor date : ℤ) ((twFor minY maxY date).2.2 - 1 - ((0 : ℕ) : ℤ) ^ 2) (0 + j)) =
      (List.range (nmxFor date + 1)).map
      (hRowSpec table (twFor minY maxY date).2.1 (twFor minY maxY date).1
        (ncFor date : ℤ) ((twFor minY maxY date).2.2 - 1)) := by
    refine List.map_congr_left fun j hj => ?_
    norm_num
  exact congrArg Except.ok (congrArg₂ Prod.mk hG hH)

/-- Value of a mapped range at an index below the bound. -/
theorem getD_map_range {β : Type} (f : ℕ → β) (k n : ℕ) (d : β) (h : n < k) :
    ((List.range k).map f).getD n d = f n := by
  rw [List.getD_eq_getElem?_getD, List.getElem?_map, List.getElem?_range h]
  rfl

/-- On a table of 240 values, every read of the date-1900 walk (window
`[-1, 120)`, next-block offset `120`) succeeds. -/
theorem replicate240_reads : ∀ i : ℤ, (twFor 1900 2030 1900).2.2 - 1 ≤ i →
    i < (twFor 1900 2030 1900).2.2 - 1 + ((nmxFor 1900 : ℤ) + 1) ^ 2 →
    (pyGet (List.replicate 240 (1 : ℚ)) i).isSome ∧
    (pyGet (List.replicate 240 (1 : ℚ)) (i + (ncFor 1900 : ℤ))).isSome := by
  intro i hi1 hi2
  have e1 : (twFor 1900 2030 1900).2.2 = 0 := by
    norm_num [twFor, pyInt, ncFor, nmxFor]
  have e2 : nmxFor 1900 = 10 := by decide
  have e3 : (ncFor 1900 : ℤ) = 120 := by decide
  have e4 : (((10 : ℕ) : ℤ) + 1) ^ 2 = 121 := by norm_num
  rw [e1] at hi1 hi2
  rw [e2, e4] at hi2
  rw [e3]
  have hlen : ((List.replicate 240 (1 : ℚ)).length : ℤ) = 240 := by
    rw [List.length_replicate]
    norm_num
  constructor
  · exact pyGet_isSome_of_bounds _ i (by rw [hlen]; omega) (by rw [hlen]; omega)
  · exact pyGet_isSome_of_bounds _ (i + 120) (by rw [hlen]; omega) (by rw [hlen]; omega)

/-! ## Claim theorems -/

/-- C1: for every in-range date (with the walk window inside the table),
the resolver produces each coefficient as `tc*current + t*next` with
`next` exactly `nc` slots ahead of `current`, walking the table
sequentially from the computed offset (`ll - 1`): nodes are visited with
degree `n = 0 .. nmx` and order `m = 0 .. n` inside each degree, each
`m = 0` node consuming one value (`h` gets a `None` placeholder) and each
`m ≥ 1` node consuming two consecutive values for `(g, h)`; this is the
closed form `gRowSpec`/`hRowSpec` built from `wv` and `gNodeOff`. -/
theorem c1_sequential_walk (table : List ℚ) (minY maxY date : ℚ)
    (h1 : minY ≤ date) (h2 : date ≤ maxY)
    (hreads : ∀ i : ℤ, (twFor minY maxY date).2.2 - 1 ≤ i →
      i < (twFor minY maxY date).2.2 - 1 + ((nmxFor date : ℤ) + 1) ^ 2 →
      (pyGet table i).isSome ∧ (pyGet table (i + (ncFor date : ℤ))).isSome) :
    getCoeffsForYear table minY maxY date =
      .ok ((List.range (nmxFor date + 1)).map
             (gRowSpec table (twFor minY maxY date).2.1 (twFor minY maxY date).1
               (ncFor date : ℤ) ((twFor minY maxY date).2.2 - 1)),
           (List.range (nmxFor date + 1)).map
             (hRowSpec table (twFor minY maxY date).2.1 (twFor minY maxY date).1
               (ncFor date : ℤ) ((twFor minY maxY date).2.2 - 1))) :=
  getCoeffsForYear_spec table minY maxY date h1 h2 hreads

/-- C1 witness: the sequential-walk theorem applied to a concrete table of
240 ones at the boundary date 1900 (interpolation branch, `ll = 0`,
degree-10 model). -/
theorem c1_sequential_walk_witness :
    getCoeffsForYear (List.replicate 240 (1 : ℚ)) 1900 2030 1900 =
      .ok ((List.range (nmxFor 1900 + 1)).map
             (gRowSpec (List.replicate 240 (1 : ℚ)) (twFor 1900 2030 1900).2.1
               (twFor 1900 2030 1900).1 (ncFor 1900 : ℤ)
               ((twFor 1900 2030 1900).2.2 - 1)),
           (List.range (nmxFor 1900 + 1)).map
             (hRowSpec (List.replicate 240 (1 : ℚ)) (twFor 1900 2030 1900).2.1
               (twFor 1900 2030 1900).1 (ncFor 1900 : ℤ)
               ((twFor 1900 2030 1900).2.2 - 1))) :=
  c1_sequential_walk (List.replicate 240 (1 : ℚ)) 1900 2030 1900 (by decide) (by decide)
    replicate240_reads

/-- C9: for every magnetic vector with components (north, east, down), the
derived quantities are pure functions of those three values:
declination is `atan2(east, north)` in degrees, inclination is
`atan2(down, horizontal)` in degrees, the horizontal intensity is
`hypot(north, east) = sqrt(north² + east²)` and the total intensity is
`sqrt(north² + east² + down²)`. -/
theorem c9_vector_derived_quantities (v : MagneticVector) :
    v.declination = degrees (atan2 v.east v.north) ∧
    v.horizontal_intensity = Real.sqrt (v.north ^ 2 + v.east ^ 2) ∧
    v.inclination = degrees (atan2 v.down (Real.sqrt (v.north ^ 2 + v.east ^ 2))) ∧
    v.total_intensity = Real.sqrt (v.north ^ 2 + v.east ^ 2 + v.down ^ 2) := by
  have hh : v.horizontal_intensity = Real.sqrt (v.north ^ 2 + v.east ^ 2) := by
    rw [MagneticVector.horizontal_intensity, hypot]
    ring_nf
  refine ⟨rfl, hh, ?_, ?_⟩
  · rw [MagneticVector.inclination, MagneticVector.horizontal_intensity, hypot]
    ring_nf
  · rw [MagneticVector.total_intensity]
    ring_nf

/-- C6: the synthesis routine applies the final frame rotation
`X' = X*cd + Z*sd`, `Z' = Z*cd - X*sd` to the loop accumulators, using the
pre-rotation `X` in the `Z'` formula and leaving `Y` untouched; for
geocentric input `cd = 1`, `sd = 0` and `r = alt`, so the returned `X` and
`Z` are the accumulated geocentric values unchanged. -/
theorem c6_final_rotation (coeffs : CoeffsR) (itype : InputType)
    (alt lat elong : ℝ) :
    igrf13synPre coeffs itype alt lat elong =
      (synLoopResult coeffs itype alt lat elong).map (fun s =>
        (s.x * (geoConvert itype alt lat).cd + s.z * (geoConvert itype alt lat).sd,
         s.y,
         s.z * (geoConvert itype alt lat).cd - s.x * (geoConvert itype alt lat).sd)) ∧
    (geoConvert .geocentric alt lat).cd = 1 ∧
    (geoConvert .geocentric alt lat).sd = 0 ∧
    (geoConvert .geocentric alt lat).r = alt ∧
    igrf13synPre coeffs .geocentric alt lat elong =
      (synLoopResult coeffs .geocentric alt lat elong).map (fun s =>
        (s.x, s.y, s.z)) := by
  refine ⟨rfl, rfl, rfl, rfl, ?_⟩
  rw [igrf13synPre]
  congr 1
  funext s
  simp [geoConvert]

/-- C5: at an exact pole (`lat = 90` or `lat = -90`) the colatitude sine is
zero, so the synthesis takes the alternate pole branch for the east
component (multiplying by `ct` instead of dividing by `st`) and the whole
routine agrees with the variant that uses the pole formula
unconditionally; in particular no division by `st = 0` contributes. -/
theorem c5_pole_east_component (coeffs : CoeffsR) (itype : InputType)
    (alt elong lat : ℝ) (h : lat = 90 ∨ lat = -90) :
    (geoConvert itype alt lat).st = 0 ∧
    igrf13synPre coeffs itype alt lat elong =
      igrf13synPrePole coeffs itype alt lat elong := by
  have hst : (geoConvert itype alt lat).st = 0 := geoConvert_st_pole itype alt lat h
  refine ⟨hst, ?_⟩
  rw [igrf13synPre, igrf13synPrePole]
  congr 1
  rw [synLoopResult, synLoopResultPole, hst]
  exact runLoop_congr _ _
    (fun k s => by rw [stepK, stepKPole, accumStep_eq_pole]) _ _ _

/-- C5 witness: the pole theorem applied at latitude 90 with empty
coefficient rows and geocentric input. -/
theorem c5_pole_east_component_witness :
    (geoConvert .geocentric 6500 90).st = 0 ∧
    igrf13synPre ([], []) .geocentric 6500 90 0 =
      igrf13synPrePole ([], []) .geocentric 6500 90 0 :=
  c5_pole_east_component ([], []) .geocentric 6500 0 90 (Or.inl rfl)

/-- C2: in the interpolation branch (`date < max_year - 10`) the weights
are `t = fract((date - min_year)/5)` and `tc = 1 - t`, so `tc + t = 1`; in
the extrapolation branch (`date >= max_year - 10`) they are `tc = 1` and
`t = date - (max_year - 10)`. -/
theorem c2_interpolation_weights (minY maxY date : ℚ) (hmin : minY ≤ date) :
    (date < maxY - 10 →
      (twFor minY maxY date).1 = Int.fract ((date - minY) / 5) ∧
      (twFor minY maxY date).2.1 = 1 - Int.fract ((date - minY) / 5) ∧
      (twFor minY maxY date).2.1 + (twFor minY maxY date).1 = 1) ∧
    (date ≥ maxY - 10 →
      (twFor minY maxY date).2.1 = 1 ∧
      (twFor minY maxY date).1 = date - (maxY - 10)) := by
  constructor
  · intro hlt
    have hge : ¬(date ≥ maxY - 10) := not_le.mpr hlt
    have h0 : (0 : ℚ) ≤ (date - minY) / 5 := by
      have : (0 : ℚ) ≤ date - minY := by linarith
      positivity
    have hfr : Int.fract ((date - minY) / 5) =
        (date - minY) / 5 - (⌊(date - minY) / 5⌋ : ℤ) := rfl
    simp only [twFor, if_neg hge, pyInt_of_nonneg _ h0]
    refine ⟨hfr.symm, by rw [hfr], by ring⟩
  · intro hge
    simp only [twFor]
    rw [if_pos hge]
    exact ⟨rfl, rfl⟩

/-- C2 witness: the weights theorem applied at `min_year = 1900`,
`max_year = 2030`, `date = 1950`. -/
theorem c2_interpolation_weights_witness :
    ((1950 : ℚ) < 2030 - 10 →
      (twFor 1900 2030 1950).1 = Int.fract (((1950 : ℚ) - 1900) / 5) ∧
      (twFor 1900 2030 1950).2.1 = 1 - Int.fract (((1950 : ℚ) - 1900) / 5) ∧
      (twFor 1900 2030 1950).2.1 + (twFor 1900 2030 1950).1 = 1) ∧
    ((1950 : ℚ) ≥ 2030 - 10 →
      (twFor 1900 2030 1950).2.1 = 1 ∧
      (twFor 1900 2030 1950).1 = 1950 - (2030 - 10)) :=
  c2_interpolation_weights 1900 2030 1950 (by decide)

/-- C3: the resolver reports the out-of-range error exactly when
`date < min_year` or `date > max_year`; the check precedes any table
access (the result on an out-of-range date does not depend on the table),
and boundary dates are never rejected (no silent clamping occurs:
in-range dates never yield the range error, they proceed to the walk). -/
theorem c3_out_of_range (table : List ℚ) (minY maxY date : ℚ) :
    (getCoeffsForYear table minY maxY date = .error .outOfRange ↔
      date < minY ∨ date > maxY) ∧
    (date < minY ∨ date > maxY →
      ∀ table2, getCoeffsForYear table minY maxY date =
        getCoeffsForYear table2 minY maxY date) ∧
    (minY ≤ maxY → date = minY ∨ date = maxY →
      getCoeffsForYear table minY maxY date ≠ .error .outOfRange) := by
  by_cases hc : date < minY ∨ date > maxY
  · refine ⟨⟨fun _ => hc, fun _ => ?_⟩, fun _ table2 => ?_, fun hmm hb => ?_⟩
    · rw [getCoeffsForYear, if_pos hc]
    · rw [getCoeffsForYear, if_pos hc, getCoeffsForYear, if_pos hc]
    · exfalso
      rcases hb with rfl | rfl
      · rcases hc with hlt | hgt
        · exact absurd hlt (lt_irrefl _)
        · exact absurd (lt_of_le_of_lt hmm hgt) (lt_irrefl _)
      · rcases hc with hlt | hgt
        · exact absurd (lt_of_le_of_lt hmm hlt) (lt_irrefl _)
        · exact absurd hgt (lt_irrefl _)
  · have hnever : getCoeffsForYear table minY maxY date ≠ .error .outOfRange := by
      rw [getCoeffsForYear, if_neg hc]
      rcases hres : walkRows table (twFor minY maxY date).2.1 (twFor minY maxY date).1
          ((ncFor date : ℤ)) 0 (nmxFor date + 1) ((twFor minY maxY date).2.2 - 1) with
        _ | ⟨⟨g2, h2, t2⟩⟩ <;> simp [hres]
    exact ⟨⟨fun he => absurd he hnever, fun hcc => absurd hcc hc⟩,
      fun hcc => absurd hcc hc, fun _ _ => hnever⟩

/-- C3 witness: out-of-range date 1899 is rejected independent of the
table, and the rejection is the out-of-range error. -/
theorem c3_out_of_range_witness :
    getCoeffsForYear [5] 1900 2030 1899 = getCoeffsForYear [] 1900 2030 1899 ∧
    getCoeffsForYear [] 1900 2030 1899 = .error .outOfRange :=
  ⟨(c3_out_of_range [5] 1900 2030 1899).2.1 (Or.inl (by decide)) [],
   (c3_out_of_range [] 1900 2030 1899).1.mpr (Or.inl (by decide))⟩

/-- C4: for in-range dates the resolver uses maximum degree `nmx = 10`
when `date < 1995` and `nmx = 13` otherwise, sets `nc = nmx*(nmx + 2)`,
and a successful resolution returns one coefficient row per degree
`0 .. nmx` in both `g` and `h`. -/
theorem c4_nmx_nc (minY maxY date : ℚ) (h1 : minY ≤ date) (h2 : date ≤ maxY) :
    nmxFor date = (if date < 1995 then 10 else 13) ∧
    ncFor date = nmxFor date * (nmxFor date + 2) ∧
    ∀ table g h, getCoeffsForYear table minY maxY date = .ok (g, h) →
      g.length = nmxFor date + 1 ∧ h.length = nmxFor date + 1 := by
  refine ⟨rfl, rfl, ?_⟩
  intro table g h hok
  have hc : ¬(date < minY ∨ date > maxY) := by
    push_neg
    exact ⟨h1, h2⟩
  simp only [getCoeffsForYear, if_neg hc] at hok
  rcases hres : walkRows table (twFor minY maxY date).2.1 (twFor minY maxY date).1
      ((ncFor date : ℤ)) 0 (nmxFor date + 1) ((twFor minY maxY date).2.2 - 1) with
    _ | ⟨⟨g2, h2x, t2⟩⟩ <;> rw [hres] at hok <;> simp at hok
  obtain ⟨rfl, rfl⟩ := hok
  exact walkRows_length table _ _ _ (nmxFor date + 1) 0 _ g2 h2x t2 hres

/-- C8 counterexample: at date 1900 on a concrete 240-value table the
resolver succeeds, yet row 0 of `g` has 2 entries (a leading `None`
sentinel plus the first walked value), not the `0 + 1 = 1` entries the
claim's triangular-shape statement requires. -/
theorem c8_counterexample_g_row0 :
    (getCoeffsForYear (List.replicate 240 (1 : ℚ)) 1900 2030 1900).toOption.map
      (fun c => ((c.1.getD 0 []).length, c.1.length)) = some (2, 11) := by
  rw [getCoeffsForYear_spec (List.replicate 240 (1 : ℚ)) 1900 2030 1900
    (by decide) (by decide) replicate240_reads]
  have e2 : nmxFor 1900 = 10 := by decide
  rw [e2]
  simp only [Except.toOption, Option.map_some']
  rw [getD_map_range _ _ _ _ (by omega)]
  simp [gRowSpec]

/-- C8 (amended): for every in-range date whose walk window lies inside
the table, the resolved pair `(g, h)` has one row per degree
`0 ≤ n ≤ nmx`; every `h` row has exactly `n + 1` entries with a `None`
placeholder at order `0`, and every `g` row of degree `n ≥ 1` has exactly
`n + 1` entries, but `g` row `0` has 2 entries (the leading `None`
sentinel of `g[0][0]` followed by the walked value), rather than `n + 1`. -/
theorem c8_triangular_shape (table : List ℚ) (minY maxY date : ℚ)
    (h1 : minY ≤ date) (h2 : date ≤ maxY)
    (hreads : ∀ i : ℤ, (twFor minY maxY date).2.2 - 1 ≤ i →
      i < (twFor minY maxY date).2.2 - 1 + ((nmxFor date : ℤ) + 1) ^ 2 →
      (pyGet table i).isSome ∧ (pyGet table (i + (ncFor date : ℤ))).isSome) :
    ∀ g h, getCoeffsForYear table minY maxY date = .ok (g, h) →
      g.length = nmxFor date + 1 ∧ h.length = nmxFor date + 1 ∧
      (∀ n, n ≤ nmxFor date →
        (h.getD n []).length = n + 1 ∧
        (g.getD n []).length = (if n = 0 then n + 2 else n + 1) ∧
        (h.getD n []).getD 0 none = none) ∧
      (g.getD 0 []).getD 0 none = none := by
  intro g h hok
  rw [getCoeffsForYear_spec table minY maxY date h1 h2 hreads] at hok
  injection hok with hok
  have hG : g = (List.range (nmxFor date + 1)).map
      (gRowSpec table (twFor minY maxY date).2.1 (twFor minY maxY date).1
        (ncFor date : ℤ) ((twFor minY maxY date).2.2 - 1)) :=
    (congrArg Prod.fst hok).symm
  have hH : h = (List.range (nmxFor date + 1)).map
      (hRowSpec table (twFor minY maxY date).2.1 (twFor minY maxY date).1
        (ncFor date : ℤ) ((twFor minY maxY date).2.2 - 1)) :=
    (congrArg Prod.snd hok).symm
  subst hG
  subst hH
  refine ⟨by simp, by simp, fun n hn => ?_, ?_⟩
  · rw [getD_map_range _ _ _ _ (by omega), getD_map_range _ _ _ _ (by omega)]
    refine ⟨by simp [hRowSpec], ?_, ?_⟩
    · by_cases hn0 : n = 0
      · subst hn0
        simp [gRowSpec]
      · simp [gRowSpec, hn0]
    · rw [hRowSpec, getD_map_range _ _ _ _ (by omega)]
      rfl
  · rw [getD_map_range _ _ _ _ (by omega), gRowSpec]
    simp

/-- C8 amended-claim witness: the shape theorem applied to the concrete
240-value table at date 1900 and to the resolver's actual output there
(obtained from the closed-form characterisation): the `g` rows number
`nmx + 1` and `g[0][0]` is the `None` sentinel. -/
theorem c8_triangular_shape_witness :
    ((List.range (nmxFor 1900 + 1)).map
        (gRowSpec (List.replicate 240 (1 : ℚ)) (twFor 1900 2030 1900).2.1
          (twFor 1900 2030 1900).1 (ncFor 1900 : ℤ)
          ((twFor 1900 2030 1900).2.2 - 1))).length = nmxFor 1900 + 1 ∧
    (((List.range (nmxFor 1900 + 1)).map
        (gRowSpec (List.replicate 240 (1 : ℚ)) (twFor 1900 2030 1900).2.1
          (twFor 1900 2030 1900).1 (ncFor 1900 : ℤ)
          ((twFor 1900 2030 1900).2.2 - 1))).getD 0 []).getD 0 none = none := by
  have h := c8_triangular_shape (List.replicate 240 (1 : ℚ)) 1900 2030 1900
    (by decide) (by decide) replicate240_reads
    ((List.range (nmxFor 1900 + 1)).map
      (gRowSpec (List.replicate 240 (1 : ℚ)) (twFor 1900 2030 1900).2.1
        (twFor 1900 2030 1900).1 (ncFor 1900 : ℤ) ((twFor 1900 2030 1900).2.2 - 1)))
    ((List.range (nmxFor 1900 + 1)).map
      (hRowSpec (List.replicate 240 (1 : ℚ)) (twFor 1900 2030 1900).2.1
        (twFor 1900 2030 1900).1 (ncFor 1900 : ℤ) ((twFor 1900 2030 1900).2.2 - 1)))
    (getCoeffsForYear_spec (List.replicate 240 (1 : ℚ)) 1900 2030 1900
      (by decide) (by decide) replicate240_reads)
  exact ⟨h.1, h.2.2.2⟩

/-- C7: evaluating through the date-bound wrapper (which resolves the
coefficients lazily on the first `evaluate` call and caches them) returns
exactly the result of the one-shot `evaluate` at the same date and
position, and the updated wrapper state stays coherent with the resolver
at the same bound date, so all later calls agree as well. -/
theorem c7_date_bound_equivalence (table : List ℚ) (minY maxY : ℚ)
    (s : DBState) (lat lon altM : ℝ) (hc : DBCoherent table minY maxY s) :
    (dbEvaluate table minY maxY s lat lon altM).map Prod.fst =
      modelEvaluate table minY maxY s.date lat lon altM ∧
    (∀ r s', dbEvaluate table minY maxY s lat lon altM = .ok (r, s') →
      DBCoherent table minY maxY s' ∧ s'.date = s.date) := by
  rcases s with ⟨d, co⟩
  rcases co with _ | c
  · simp only [dbEvaluate, modelEvaluate]
    rcases hres : getCoeffsForYear table minY maxY d with e | c
    · exact ⟨rfl, fun r s' h => by cases h⟩
    · refine ⟨rfl, fun r s' h => ?_⟩
      injection h with h
      have hs' : s' = ⟨d, some c⟩ := (congrArg Prod.snd h).symm
      subst hs'
      exact ⟨Or.inr hres, rfl⟩
  · rcases hc with hnone | hok
    · cases hnone
    · simp only [Option.getD_some] at hok
      simp only [dbEvaluate, modelEvaluate, hok]
      refine ⟨rfl, fun r s' h => ?_⟩
      injection h with h
      have hs' : s' = ⟨d, some c⟩ := (congrArg Prod.snd h).symm
      subst hs'
      exact ⟨Or.inr hok, rfl⟩

/-- C7 witness: the equivalence applied to a freshly date-bound model at
date 1900 over the empty table. -/
theorem c7_date_bound_equivalence_witness :
    (dbEvaluate [] 1900 2030 ⟨1900, none⟩ 0 0 0).map Prod.fst =
      modelEvaluate [] 1900 2030 (1900 : ℚ) 0 0 0 ∧
    (∀ r s', dbEvaluate [] 1900 2030 ⟨1900, none⟩ 0 0 0 = .ok (r, s') →
      DBCoherent [] 1900 2030 s' ∧ s'.date = 1900) :=
  c7_date_bound_equivalence [] 1900 2030 ⟨1900, none⟩ 0 0 0 (Or.inl rfl)

/-- C4 witness: the degree theorem applied at `min_year = 1900`,
`max_year = 2030`, `date = 2000`. -/
theorem c4_nmx_nc_witness :
    nmxFor 2000 = (if (2000 : ℚ) < 1995 then 10 else 13) ∧
    ncFor 2000 = nmxFor 2000 * (nmxFor 2000 + 2) ∧
    ∀ table g h, getCoeffsForYear table 1900 2030 2000 = .ok (g, h) →
      g.length = nmxFor 2000 + 1 ∧ h.length = nmxFor 2000 + 1 :=
  c4_nmx_nc 1900 2030 2000 (by decide) (by decide)

/-- `resetStep` restores the read bounds `1 ≤ n` and `m ≤ n` from the loop
invariant. -/
theorem resetStep_bounds (ratio : ℝ) (s : SynState) (hs : SynInv s) :
    1 ≤ (resetStep ratio s).n ∧ (resetStep ratio s).m ≤ (resetStep ratio s).n := by
  obtain ⟨hm, hn⟩ := hs
  rw [resetStep]
  split_ifs with hlt
  · exact ⟨Nat.le_add_left 1 s.n, Nat.zero_le _⟩
  · rcases hn with hn1 | ⟨hn0, hm1⟩
    · exact ⟨hn1, by omega⟩
    · exact absurd (by omega : s.n < s.m) hlt

/-- `recurStep` leaves the pair counters unchanged. -/
theorem recurStep_mn (st ct : ℝ) (k : ℕ) (s : SynState) :
    (recurStep st ct k s).m = s.m ∧ (recurStep st ct k s).n = s.n := by
  rw [recurStep]
  split
  · exact ⟨rfl, rfl⟩
  · split
    · exact ⟨rfl, rfl⟩
    · exact ⟨rfl, rfl⟩

/-- A successful `accumStep` advances the order by one and keeps the
degree. -/
theorem accumStep_mn (g h : List (List (Option ℝ))) (st ct : ℝ) (k : ℕ)
    (s s' : SynState) (hstep : accumStep g h st ct k s = some s') :
    s'.m = s.m + 1 ∧ s'.n = s.n := by
  rw [accumStep] at hstep
  rcases hG : readCoef g s.n s.m with _ | gv <;> rw [hG] at hstep <;>
    simp only [Option.bind_eq_bind, Option.none_bind, Option.some_bind] at hstep
  · cases hstep
  by_cases h0 : s.m = 0
  · rw [if_pos h0] at hstep
    injection hstep with hstep
    rw [← hstep]
    exact ⟨rfl, rfl⟩
  · rw [if_neg h0] at hstep
    rcases hH : readCoef h s.n s.m with _ | hv <;> rw [hH] at hstep <;>
      simp only [Option.bind_eq_bind, Option.none_bind, Option.some_bind] at hstep
    · cases hstep
    injection hstep with hstep
    rw [← hstep]
    exact ⟨rfl, rfl⟩

/-- `accumStep` depends on the coefficient rows only through the reads at
the current node `(n, m)`. -/
theorem accumStep_congr (g h g' h' : List (List (Option ℝ))) (st ct : ℝ)
    (k : ℕ) (s : SynState) (hn : 1 ≤ s.n) (hm : s.m ≤ s.n)
    (hg : ∀ n m, 1 ≤ n → m ≤ n → readCoef g n m = readCoef g' n m)
    (hh : ∀ n m, 1 ≤ n → 1 ≤ m → m ≤ n → readCoef h n m = readCoef h' n m) :
    accumStep g h st ct k s = accumStep g' h' st ct k s := by
  rw [accumStep, accumStep, hg s.n s.m hn hm]
  by_cases h0 : s.m = 0
  · simp [h0]
  · rw [hh s.n s.m hn (by omega) hm]

/-- One loop iteration depends on the coefficient rows only through the
reads allowed by the invariant. -/
theorem stepK_congr (g h g' h' : List (List (Option ℝ))) (st ct r0 : ℝ)
    (hg : ∀ n m, 1 ≤ n → m ≤ n → readCoef g n m = readCoef g' n m)
    (hh : ∀ n m, 1 ≤ n → 1 ≤ m → m ≤ n → readCoef h n m = readCoef h' n m)
    (k : ℕ) (s : SynState) (hs : SynInv s) :
    stepK g h st ct r0 k s = stepK g' h' st ct r0 k s := by
  rw [stepK, stepK]
  obtain ⟨hb1, hb2⟩ := resetStep_bounds r0 s hs
  obtain ⟨hr1, hr2⟩ := recurStep_mn st ct k (resetStep r0 s)
  exact accumStep_congr g h g' h' st ct k _ (by omega) (by omega) hg hh

/-- One successful loop iteration preserves the invariant. -/
theorem stepK_inv (g h : List (List (Option ℝ))) (st ct r0 : ℝ) (k : ℕ)
    (s s' : SynState) (hs : SynInv s)
    (hstep : stepK g h st ct r0 k s = some s') : SynInv s' := by
  rw [stepK] at hstep
  obtain ⟨hb1, hb2⟩ := resetStep_bounds r0 s hs
  obtain ⟨hr1, hr2⟩ := recurStep_mn st ct k (resetStep r0 s)
  obtain ⟨ha1, ha2⟩ := accumStep_mn g h st ct k _ s' hstep
  constructor
  · omega
  · left
    omega

/-- Two loop bodies that agree on invariant states and preserve the
invariant run to the same result from an invariant state. -/
theorem runLoop_congr_inv (step1 step2 : ℕ → SynState → Option SynState)
    (hcong : ∀ k s, SynInv s → step1 k s = step2 k s)
    (hinv : ∀ k s s', SynInv s → step1 k s = some s' → SynInv s') :
    ∀ cnt k s, SynInv s → runLoop step1 k cnt s = runLoop step2 k cnt s := by
  intro cnt
  induction cnt with
  | zero => intro k s hs; rfl
  | succ c ih =>
    intro k s hs
    rw [runLoop, runLoop, ← hcong k s hs]
    rcases h1 : step1 k s with _ | s'
    · rfl
    · exact ih (k + 1) s' (hinv k s s' hs h1)

/-- C10: the synthesis output depends only on the coefficient entries of
degree `1 ≤ n ≤ nmx` (orders `0 ≤ m ≤ n` for `g`, `1 ≤ m ≤ n` for `h`):
for two coefficient pairs with `g`-rows of equal count whose lookups agree
there, the routine returns identical results for every input type,
altitude, latitude and longitude; in particular the `None` placeholders at
`g[0][0]` and at every `h[n][0]` are never read. -/
theorem c10_noninterference (g h g' h' : List (List (Option ℝ)))
    (hlen : g.length = g'.length)
    (hg : ∀ n m, 1 ≤ n → m ≤ n → readCoef g n m = readCoef g' n m)
    (hh : ∀ n m, 1 ≤ n → 1 ≤ m → m ≤ n → readCoef h n m = readCoef h' n m)
    (itype : InputType) (alt lat elong : ℝ) :
    igrf13synPre (g, h) itype alt lat elong =
      igrf13synPre (g', h') itype alt lat elong := by
  rw [igrf13synPre, igrf13synPre]
  congr 1
  rw [synLoopResult, synLoopResult]
  simp only
  rw [hlen]
  exact runLoop_congr_inv _ _
    (fun k s hs => stepK_congr g h g' h' _ _ _ hg hh k s hs)
    (fun k s s' hs h1 => stepK_inv g h _ _ _ k s s' hs h1)
    _ 1 _ ⟨Nat.le_refl 1, Or.inr ⟨rfl, rfl⟩⟩

/-- C10 witness: two concrete coefficient pairs that differ only at
`g[0][0]`, `g[0][1]`, `h[0][0]`, `h[1][0]` (the positions the synthesis
loop never reads) produce the same output. -/
theorem c10_noninterference_witness :
    igrf13synPre ([[none], [some 1, some 2]], [[none], [none, some 3]])
        .geocentric 6500 10 20 =
      igrf13synPre ([[some 99, some 4], [some 1, some 2]], [[some 5], [some 8, some 3]])
        .geocentric 6500 10 20 :=
  c10_noninterference
    [[none], [some 1, some 2]] [[none], [none, some 3]]
    [[some 99, some 4], [some 1, some 2]] [[some 5], [some 8, some 3]]
    rfl
    (by
      intro n m h1 h2
      rcases n with _ | n1
      · omega
      rcases n1 with _ | k
      · rcases m with _ | m1
        · rfl
        · rcases m1 with _ | mk
          · rfl
          · omega
      · rfl)
    (by
      intro n m h1 h2 h3
      rcases n with _ | n1
      · omega
      rcases n1 with _ | k
      · rcases m with _ | m1
        · omega
        · rcases m1 with _ | mk
          · rfl
          · omega
      · rfl)
    .geocentric 6500 10 20

end IGRF
